import Mathlib

/-!
Verification of the task-manager's snapshot/history engine
(`src/system.rs`) and application loop (`src/app.rs`).

Rust `f32`/`f64` values are modelled as `Option ℚ`: `some q` is an
ordinary (finite) value, `none` stands for NaN, the one value that is
incomparable under IEEE ordering.  The claims under study never depend
on rounding, only on ordering and on which values flow where, so ℚ is
an adequate carrier for the finite values.
-/

/-- Model of Rust `f32`/`f64`: `none` is NaN, `some q` a finite value. -/
abbrev F32 : Type := Option ℚ

/-- `some` embedding of a rational as a finite float. -/
def F32.fin (q : ℚ) : F32 := some q

/-- NaN. -/
def F32.nan : F32 := none

/-- Three-way comparison used to model Rust `Ord::cmp` on integers
(`compareOfLessAndEq` semantics). -/
def natCmp (a b : ℕ) : Ordering :=
  if a < b then .lt else if a = b then .eq else .gt

/-- Three-way comparison on ℚ, modelling `PartialOrd` on finite floats. -/
def ratCmp (a b : ℚ) : Ordering :=
  if a < b then .lt else if a = b then .eq else .gt

/-- Rust `f32::partial_cmp`: `None` whenever either operand is NaN. -/
def f32Pcmp : F32 → F32 → Option Ordering
  | some a, some b => some (ratCmp a b)
  | _, _ => none

/-- Rust `str::cmp` (lexicographic), via the string order. -/
def strCmp (a b : String) : Ordering :=
  if a < b then .lt else if a = b then .eq else .gt

/-- `ProcessInfo` from `src/system.rs`. -/
structure ProcessInfo where
  pid : ℕ
  name : String
  cpu_usage : F32
  memory : ℕ
  memory_percent : F32
deriving DecidableEq

/-- `SortOrder` from `src/system.rs`. -/
inductive SortOrder where
  | cpu
  | memory
  | pid
  | name
deriving DecidableEq

/-- The comparator of the `SortOrder::Cpu` arm:
`b.cpu_usage.partial_cmp(&a.cpu_usage).unwrap_or(Ordering::Equal)`. -/
def cmpCpu (a b : ProcessInfo) : Ordering :=
  (f32Pcmp b.cpu_usage a.cpu_usage).getD .eq

/-- The comparator of the `SortOrder::Memory` arm: `b.memory.cmp(&a.memory)`. -/
def cmpMemory (a b : ProcessInfo) : Ordering :=
  natCmp b.memory a.memory

/-- The comparator of the `SortOrder::Pid` arm: `a.pid.cmp(&b.pid)`. -/
def cmpPid (a b : ProcessInfo) : Ordering :=
  natCmp a.pid b.pid

/-- The comparator of the `SortOrder::Name` arm:
`a.name.to_lowercase().cmp(&b.name.to_lowercase())`. -/
def cmpName (a b : ProcessInfo) : Ordering :=
  strCmp a.name.toLower b.name.toLower

/-- Stable insertion into a sorted list: the incoming element goes in
front of the first strictly greater element, after equal ones it
precedes in the original list (the stable-sort discipline of Rust
`slice::sort_by`). -/
def insertBy (cmp : α → α → Ordering) (x : α) : List α → List α
  | [] => [x]
  | y :: ys => if cmp x y ≠ .gt then x :: y :: ys else y :: insertBy cmp x ys

/-- Model of Rust `slice::sort_by` as a stable insertion sort. -/
def sortBy (cmp : α → α → Ordering) : List α → List α
  | [] => []
  | x :: xs => insertBy cmp x (sortBy cmp xs)

/-- A comparator is skew-symmetric when swapping arguments swaps the
verdict; all four comparators of `get_processes` satisfy this. -/
def CmpSwap (cmp : α → α → Ordering) : Prop :=
  ∀ a b, cmp a b = (cmp b a).swap

/-- One per-core entry of a raw snapshot (`sysinfo::Cpu`). -/
structure SampleCpu where
  name : String
  cpu_usage : F32
deriving DecidableEq

/-- One raw process record of a snapshot (`sysinfo::Process`). -/
structure RawProcess where
  pid : ℕ
  name : String
  cpu_usage : F32
  memory : ℕ
deriving DecidableEq

/-- A raw system snapshot: what `sysinfo::System` holds right after a
`refresh_all()` call (the Sampler boundary). -/
structure Sample where
  cpus : List SampleCpu
  processes : List RawProcess
  used_memory : ℕ
  total_memory : ℕ
deriving DecidableEq

/-- `CpuInfo` from `src/system.rs`; the `VecDeque` history is a list,
oldest sample first. -/
structure CpuInfo where
  name : String
  usage : F32
  history : List F32
deriving DecidableEq

/-- `SystemMonitor` from `src/system.rs`. -/
structure SystemMonitor where
  system : Sample
  cpu_history : List CpuInfo
  memory_history : List F32
  max_history_len : ℕ
deriving DecidableEq

/-- `SystemMonitor::new`: `init` is the snapshot installed by the
constructor's `refresh_all()` call. -/
def SystemMonitor.new (init : Sample) : SystemMonitor where
  system := init
  cpu_history :=
    init.cpus.map fun cpu => { name := cpu.name, usage := F32.fin 0, history := [] }
  memory_history := []
  max_history_len := 60

/-- The history push of `SystemMonitor::refresh`:
`if len >= max { pop_front() }; push_back(v)`. -/
def hpush (maxLen : ℕ) (h : List α) (v : α) : List α :=
  (if maxLen ≤ h.length then h.drop 1 else h) ++ [v]

/-- The `for (i, cpu) in cpus.enumerate { if let Some(info) = hist.get_mut(i) … }`
loop of `SystemMonitor::refresh`: positional zip, extra sample cores
ignored, series beyond the sample count untouched. -/
def updateCpuHistory (maxLen : ℕ) : List CpuInfo → List SampleCpu → List CpuInfo
  | hist, [] => hist
  | [], _ => []
  | info :: hist, cpu :: cpus =>
    { info with
      usage := cpu.cpu_usage
      history := hpush maxLen info.history cpu.cpu_usage } ::
        updateCpuHistory maxLen hist cpus

/-- `used_memory as f64 / total_memory as f64 * 100.0`; a zero total
gives a non-finite value, collapsed into the NaN marker (no claim
inspects the number itself). -/
def memPercent (s : Sample) : F32 :=
  if s.total_memory = 0 then F32.nan
  else F32.fin ((s.used_memory : ℚ) / (s.total_memory : ℚ) * 100)

/-- `SystemMonitor::refresh`. -/
def SystemMonitor.refresh (m : SystemMonitor) (s : Sample) : SystemMonitor where
  system := s
  cpu_history := updateCpuHistory m.max_history_len m.cpu_history s.cpus
  memory_history := hpush m.max_history_len m.memory_history (memPercent s)
  max_history_len := m.max_history_len

/-- `proc.memory() as f32 / total_memory as f32 * 100.0` (same non-finite
collapse as `memPercent`). -/
def procMemPercent (mem total : ℕ) : F32 :=
  if total = 0 then F32.nan else F32.fin ((mem : ℚ) / (total : ℚ) * 100)

/-- The unsorted `Vec<ProcessInfo>` built by the first half of
`SystemMonitor::get_processes`. -/
def SystemMonitor.processTable (m : SystemMonitor) : List ProcessInfo :=
  m.system.processes.map fun proc =>
    { pid := proc.pid
      name := proc.name
      cpu_usage := proc.cpu_usage
      memory := proc.memory
      memory_percent := procMemPercent proc.memory m.system.total_memory }

/-- `SystemMonitor::get_processes`. -/
def SystemMonitor.get_processes (m : SystemMonitor) (sort_order : SortOrder) :
    List ProcessInfo :=
  match sort_order with
  | .cpu => sortBy cmpCpu m.processTable
  | .memory => sortBy cmpMemory m.processTable
  | .pid => sortBy cmpPid m.processTable
  | .name => sortBy cmpName m.processTable

/-- `SystemMonitor::get_cpu_info`. -/
def SystemMonitor.get_cpu_info (m : SystemMonitor) : List CpuInfo :=
  m.cpu_history

/-- `SystemMonitor::get_memory_history`. -/
def SystemMonitor.get_memory_history (m : SystemMonitor) : List F32 :=
  m.memory_history

/-- The interaction-loop state of `App` (`src/app.rs`); the monitor is
inlined since the lock discipline is studied separately. -/
structure App where
  system_monitor : SystemMonitor
  selected_process : ℕ
  sort_order : SortOrder
deriving DecidableEq

/-- `App::new` (+ the constructor's first sample). -/
def App.new (init : Sample) : App where
  system_monitor := SystemMonitor.new init
  selected_process := 0
  sort_order := SortOrder.cpu

/-- `App::move_selection_up`. -/
def App.move_selection_up (a : App) : App :=
  if a.selected_process > 0 then
    { a with selected_process := a.selected_process - 1 }
  else a

/-- `App::move_selection_down`; `ℕ` subtraction models `saturating_sub`. -/
def App.move_selection_down (a : App) : App :=
  let processes := a.system_monitor.get_processes a.sort_order
  if a.selected_process < processes.length - 1 then
    { a with selected_process := a.selected_process + 1 }
  else a

/-- `App::kill_selected_process`, with the Terminator injected as `term`.
Returns the pids handed to the Terminator, the app state afterwards, and
whether the call returned `Ok` (`true`). -/
def App.kill_selected_process (term : ℕ → Bool) (a : App) : List ℕ × App × Bool :=
  let processes := a.system_monitor.get_processes a.sort_order
  match processes[a.selected_process]? with
  | some process =>
    let _ := term process.pid
    ([process.pid], a, true)
  | none => ([], a, true)

/-- The events the `run_app` loop and the background refresher can
interleave: the key handlers of `App::run_app` and one full execution of
the refresher body (under the write lock). -/
inductive AppEvent where
  | keyUp
  | keyDown
  | keyKill
  | keySortCpu
  | keySortMem
  | refresh (s : Sample)
deriving DecidableEq

/-- One step of the application loop. -/
def App.step (a : App) : AppEvent → App
  | .keyUp => a.move_selection_up
  | .keyDown => a.move_selection_down
  | .keyKill => (a.kill_selected_process (fun _ => true)).2.1
  | .keySortCpu => { a with sort_order := .cpu, selected_process := 0 }
  | .keySortMem => { a with sort_order := .memory, selected_process := 0 }
  | .refresh s => { a with system_monitor := a.system_monitor.refresh s }

/-- Run the loop from startup over a list of events. -/
def App.run (init : Sample) (events : List AppEvent) : App :=
  events.foldl App.step (App.new init)

/-- Reachable states of the application loop. -/
inductive App.Reachable (init : Sample) : App → Prop where
  | refl : App.Reachable init (App.new init)
  | tail (a : App) (e : AppEvent) :
      App.Reachable init a → App.Reachable init (a.step e)

/-- Length of the process view the selection cursor points into. -/
def App.viewLen (a : App) : ℕ :=
  (a.system_monitor.get_processes a.sort_order).length

/-- "`a.cpu_usage >= b.cpu_usage`, with NaN treated as equal": the claim's
adjacency relation for the CPU sort. -/
def f32GeNaNEq (x y : F32) : Prop :=
  match x, y with
  | some a, some b => b ≤ a
  | _, _ => True

instance (x y : F32) : Decidable (f32GeNaNEq x y) :=
  match x, y with
  | some a, some b => inferInstanceAs (Decidable (b ≤ a))
  | some _, none => .isTrue trivial
  | none, some _ => .isTrue trivial
  | none, none => .isTrue trivial


/-- The last `n` pushed values, oldest first. -/
def lastN (n : ℕ) (l : List α) : List α := l.drop (l.length - n)

/-- The usage values actually pushed into CPU series `i` by a sequence of
refreshes: one per sample that reports at least `i + 1` cores. -/
def cpuPushed (i : ℕ) (ss : List Sample) : List F32 :=
  ss.filterMap fun s => (s.cpus[i]?).map SampleCpu.cpu_usage

/-- The selection-cursor invariant of the spec:
`0 <= cursor < max(1, view_length)`. -/
def App.selInv (a : App) : Prop := a.selected_process < max 1 a.viewLen

instance (a : App) : Decidable a.selInv :=
  inferInstanceAs (Decidable (a.selected_process < max 1 a.viewLen))

/-- Program counter of the Refresher task: `idle` (lock released),
`locked` (write lock acquired, nothing written yet), `sysDone`
(`refresh_all` done), `cpuDone` (CPU histories written). -/
inductive WriterPc where
  | idle
  | locked
  | sysDone
  | cpuDone
deriving DecidableEq

/-- Interleaving state of the two tasks of `App::run` sharing the
`RwLock<SystemMonitor>`: the monitor, the writer's program counter, the
sample it is applying, the number of read-lock holders, and (ghost) the
samples whose refresh completed. -/
structure CState where
  mon : SystemMonitor
  wpc : WriterPc
  pending : Sample
  readers : ℕ
  applied : List Sample
deriving DecidableEq

/-- Startup state: fresh monitor, lock free. -/
def CState.start (initS : Sample) : CState where
  mon := SystemMonitor.new initS
  wpc := .idle
  pending := initS
  readers := 0
  applied := []

/-- Small-step interleaving semantics.  Write acquisition needs the lock
free of readers and writers; read acquisition needs no writer holding —
the access discipline of `tokio::sync::RwLock`.  The three writer steps
mirror the statement order of `SystemMonitor::refresh`: install the new
raw snapshot, update the CPU histories, push the memory sample. -/
inductive CStep : CState → CState → Prop where
  | wAcquire (c : CState) (s : Sample) (hr : c.readers = 0) (hw : c.wpc = .idle) :
      CStep c { c with wpc := .locked, pending := s }
  | wSys (c : CState) (hw : c.wpc = .locked) :
      CStep c { c with wpc := .sysDone, mon := { c.mon with system := c.pending } }
  | wCpu (c : CState) (hw : c.wpc = .sysDone) :
      CStep c { c with wpc := .cpuDone,
                       mon := { c.mon with
                         cpu_history := updateCpuHistory c.mon.max_history_len
                           c.mon.cpu_history c.pending.cpus } }
  | wMemRelease (c : CState) (hw : c.wpc = .cpuDone) :
      CStep c { c with wpc := .idle,
                       mon := { c.mon with
                         memory_history := hpush c.mon.max_history_len
                           c.mon.memory_history (memPercent c.pending) },
                       applied := c.applied ++ [c.pending] }
  | rAcquire (c : CState) (hw : c.wpc = .idle) :
      CStep c { c with readers := c.readers + 1 }
  | rRelease (c : CState) (hr : 0 < c.readers) :
      CStep c { c with readers := c.readers - 1 }

/-- Reachable interleaving states. -/
inductive CReach (initS : Sample) : CState → Prop where
  | refl : CReach initS (CState.start initS)
  | tail {c c' : CState} : CReach initS c → CStep c c' → CReach initS c'

/-- The monitor after `k` completed refreshes. -/
def refreshedMon (initS : Sample) (applied : List Sample) : SystemMonitor :=
  List.foldl SystemMonitor.refresh (SystemMonitor.new initS) applied

/-- Inductive invariant for the interleaving system: a writer holding any
stage of the lock excludes all readers, and the monitor content is
determined by the writer's stage. -/
def CInv (initS : Sample) (c : CState) : Prop :=
  (c.wpc ≠ WriterPc.idle → c.readers = 0) ∧
  ((c.wpc = .idle ∨ c.wpc = .locked) → c.mon = refreshedMon initS c.applied) ∧
  (c.wpc = .sysDone →
    c.mon = { refreshedMon initS c.applied with system := c.pending }) ∧
  (c.wpc = .cpuDone →
    c.mon = { refreshedMon initS c.applied with
      system := c.pending
      cpu_history := updateCpuHistory (refreshedMon initS c.applied).max_history_len
        (refreshedMon initS c.applied).cpu_history c.pending.cpus })

/-! Concrete fixtures for witnesses and counterexamples. -/

/-- The empty snapshot. -/
def sampleEmpty : Sample where
  cpus := []
  processes := []
  used_memory := 0
  total_memory := 0

/-- Monitor constructed from the empty snapshot. -/
def monEmpty : SystemMonitor := SystemMonitor.new sampleEmpty

/-- A bland process record with a given pid. -/
def rawProc (n : ℕ) : RawProcess where
  pid := n
  name := "p"
  cpu_usage := F32.fin 0
  memory := 0

/-- A snapshot with five processes. -/
def sample5 : Sample where
  cpus := []
  processes := [rawProc 1, rawProc 2, rawProc 3, rawProc 4, rawProc 5]
  used_memory := 0
  total_memory := 0

/-- A snapshot with two processes. -/
def sample2 : Sample where
  cpus := []
  processes := [rawProc 1, rawProc 2]
  used_memory := 0
  total_memory := 0

/-- Loop run: refresh to five processes, navigate down four times, then a
refresh shrinks the view to two processes. -/
def appShrunk : App :=
  App.run sampleEmpty
    [.refresh sample5, .keyDown, .keyDown, .keyDown, .keyDown, .refresh sample2]

/-- The spec's scenario processes: `(pid=1, cpu=5.0, mem=100)` and
`(pid=2, cpu=50.0, mem=50)`. -/
def procA : RawProcess where
  pid := 1
  name := "a"
  cpu_usage := F32.fin 5
  memory := 100

def procB : RawProcess where
  pid := 2
  name := "b"
  cpu_usage := F32.fin 50
  memory := 50

def sampleAB : Sample where
  cpus := []
  processes := [procA, procB]
  used_memory := 0
  total_memory := 0

def monAB : SystemMonitor := SystemMonitor.new sampleAB

/-- App state over `monAB` with the cursor on the second row. -/
def appAB1 : App where
  system_monitor := monAB
  selected_process := 1
  sort_order := .cpu

/-- App state with an empty view but cursor at 5 (out of range). -/
def appC7 : App where
  system_monitor := monEmpty
  selected_process := 5
  sort_order := .cpu

/-- A `ProcessInfo` whose cpu reading is NaN. -/
def procNaN : ProcessInfo where
  pid := 0
  name := ""
  cpu_usage := F32.nan
  memory := 0
  memory_percent := F32.nan

/-- A raw process with NaN cpu. -/
def rawNaN : RawProcess where
  pid := 3
  name := "n"
  cpu_usage := F32.nan
  memory := 0

/-- A snapshot mixing a NaN-cpu process with an ordinary one. -/
def sampleNaN : Sample where
  cpus := []
  processes := [rawNaN, procA]
  used_memory := 0
  total_memory := 0

def monNaN : SystemMonitor := SystemMonitor.new sampleNaN

/-- Two-core snapshots for the history scenarios: initial, then usage
`[10, 90]`, then `[20, 70]`. -/
def sampleCores0 : Sample where
  cpus := [{ name := "cpu0", cpu_usage := F32.fin 0 }, { name := "cpu1", cpu_usage := F32.fin 0 }]
  processes := []
  used_memory := 1
  total_memory := 2

def sampleCores1 : Sample where
  cpus := [{ name := "cpu0", cpu_usage := F32.fin 10 }, { name := "cpu1", cpu_usage := F32.fin 90 }]
  processes := []
  used_memory := 1
  total_memory := 2

def sampleCores2 : Sample where
  cpus := [{ name := "cpu0", cpu_usage := F32.fin 20 }, { name := "cpu1", cpu_usage := F32.fin 70 }]
  processes := []
  used_memory := 1
  total_memory := 2

/-- Monitor after the two scenario refreshes. -/
def monCores : SystemMonitor :=
  List.foldl SystemMonitor.refresh (SystemMonitor.new sampleCores0)
    [sampleCores1, sampleCores2]

/-- Series 0 after the scenario: usage 20, history `[10, 20]`. -/
def infoCore0 : CpuInfo where
  name := "cpu0"
  usage := F32.fin 20
  history := [F32.fin 10, F32.fin 20]

/-- Interleaving state with one reader holding the lock. -/
def cReader : CState := { CState.start sampleEmpty with readers := 1 }

theorem insertBy_perm (cmp : α → α → Ordering) (x : α) :
    ∀ l : List α, (insertBy cmp x l).Perm (x :: l) := by
  intro l
  induction l with
  | nil => simp [insertBy]
  | cons y ys ih =>
    by_cases h : cmp x y ≠ .gt
    · simp [insertBy, h]
    · simp only [insertBy, if_neg h]
      exact ((ih.cons y).trans (List.Perm.swap x y ys))

theorem sortBy_perm (cmp : α → α → Ordering) :
    ∀ l : List α, (sortBy cmp l).Perm l := by
  intro l
  induction l with
  | nil => simp [sortBy]
  | cons x xs ih =>
    exact (insertBy_perm cmp x (sortBy cmp xs)).trans (ih.cons x)

theorem insertBy_chain (cmp : α → α → Ordering) (hsw : CmpSwap cmp) (x : α) :
    ∀ l : List α, l.Chain' (fun a b => cmp a b ≠ .gt) →
      (insertBy cmp x l).Chain' (fun a b => cmp a b ≠ .gt) := by
  intro l
  induction l with
  | nil => intro _; simp [insertBy]
  | cons y ys ih =>
    intro hch
    rw [List.chain'_cons'] at hch
    by_cases h : cmp x y ≠ .gt
    · simp only [insertBy, if_pos h]
      rw [List.chain'_cons]
      exact ⟨h, List.chain'_cons'.2 hch⟩
    · simp only [insertBy, if_neg h]
      push_neg at h
      rw [List.chain'_cons']
      refine ⟨?_, ih hch.2⟩
      intro z hz
      rcases ys with _ | ⟨y', ys'⟩
      · simp [insertBy] at hz
        subst hz
        rw [hsw y x, h]
        decide
      · simp only [insertBy] at hz
        by_cases h' : cmp x y' ≠ .gt
        · rw [if_pos h'] at hz
          simp at hz
          subst hz
          rw [hsw y x, h]
          decide
        · rw [if_neg h'] at hz
          simp at hz
          subst hz
          exact hch.1 y' rfl

theorem sortBy_chain (cmp : α → α → Ordering) (hsw : CmpSwap cmp) :
    ∀ l : List α, (sortBy cmp l).Chain' (fun a b => cmp a b ≠ .gt) := by
  intro l
  induction l with
  | nil => simp [sortBy]
  | cons x xs ih => exact insertBy_chain cmp hsw x _ ih

theorem natCmp_ne_gt (a b : ℕ) : natCmp a b ≠ .gt ↔ a ≤ b := by
  unfold natCmp
  rcases lt_trichotomy a b with h | h | h
  · rw [if_pos h]
    simp [h.le]
  · subst h
    rw [if_neg (lt_irrefl a), if_pos rfl]
    simp
  · rw [if_neg (asymm h), if_neg (ne_of_gt h)]
    simp [not_le.mpr h]

theorem ratCmp_ne_gt (a b : ℚ) : ratCmp a b ≠ .gt ↔ a ≤ b := by
  unfold ratCmp
  rcases lt_trichotomy a b with h | h | h
  · rw [if_pos h]
    simp [h.le]
  · subst h
    rw [if_neg (lt_irrefl a), if_pos rfl]
    simp
  · rw [if_neg (asymm h), if_neg (ne_of_gt h)]
    simp [not_le.mpr h]

theorem strCmp_ne_gt (a b : String) : strCmp a b ≠ .gt ↔ a ≤ b := by
  unfold strCmp
  rcases lt_trichotomy a b with h | h | h
  · rw [if_pos h]
    simp [h.le]
  · subst h
    rw [if_neg (lt_irrefl a), if_pos rfl]
    simp
  · rw [if_neg (asymm h), if_neg (ne_of_gt h)]
    simp [not_le.mpr h]

theorem natCmp_swap (a b : ℕ) : natCmp a b = (natCmp b a).swap := by
  unfold natCmp
  rcases lt_trichotomy a b with h | h | h
  · rw [if_pos h, if_neg (asymm h), if_neg (ne_of_gt h)]
    rfl
  · subst h
    rw [if_neg (lt_irrefl a), if_pos rfl]
    rfl
  · rw [if_neg (asymm h), if_neg (ne_of_gt h), if_pos h]
    rfl

theorem ratCmp_swap (a b : ℚ) : ratCmp a b = (ratCmp b a).swap := by
  unfold ratCmp
  rcases lt_trichotomy a b with h | h | h
  · rw [if_pos h, if_neg (asymm h), if_neg (ne_of_gt h)]
    rfl
  · subst h
    rw [if_neg (lt_irrefl a), if_pos rfl]
    rfl
  · rw [if_neg (asymm h), if_neg (ne_of_gt h), if_pos h]
    rfl

theorem strCmp_swap (a b : String) : strCmp a b = (strCmp b a).swap := by
  unfold strCmp
  rcases lt_trichotomy a b with h | h | h
  · rw [if_pos h, if_neg (asymm h), if_neg (ne_of_gt h)]
    rfl
  · subst h
    rw [if_neg (lt_irrefl a), if_pos rfl]
    rfl
  · rw [if_neg (asymm h), if_neg (ne_of_gt h), if_pos h]
    rfl

theorem cmpCpu_swap : CmpSwap cmpCpu := by
  intro a b
  unfold cmpCpu f32Pcmp
  rcases a.cpu_usage with _ | x <;> rcases b.cpu_usage with _ | y <;>
    simp only [Option.getD]
  · rfl
  · rfl
  · rfl
  · exact ratCmp_swap y x

theorem cmpMemory_swap : CmpSwap cmpMemory := fun a b =>
  natCmp_swap b.memory a.memory

theorem cmpPid_swap : CmpSwap cmpPid := fun a b =>
  natCmp_swap a.pid b.pid

theorem cmpName_swap : CmpSwap cmpName := fun a b =>
  strCmp_swap a.name.toLower b.name.toLower

theorem cmpCpu_ne_gt (a b : ProcessInfo) :
    cmpCpu a b ≠ .gt → f32GeNaNEq a.cpu_usage b.cpu_usage := by
  unfold cmpCpu f32Pcmp f32GeNaNEq
  rcases a.cpu_usage with _ | x <;> rcases b.cpu_usage with _ | y <;>
    simp only [Option.getD] <;> intro h
  · trivial
  · trivial
  · trivial
  · exact (ratCmp_ne_gt y x).mp h

theorem hpush_length_le (h : List α) (v : α) (hh : h.length ≤ 60) :
    (hpush 60 h v).length ≤ 60 := by
  unfold hpush
  split_ifs with hc <;> simp [List.length_drop] <;> omega

theorem hpush_length_succ_le (n : ℕ) (h : List α) (v : α) :
    (hpush n h v).length ≤ h.length + 1 := by
  unfold hpush
  split_ifs with hc <;> simp [List.length_drop]

theorem lastN_length (n : ℕ) (l : List α) : (lastN n l).length = min n l.length := by
  unfold lastN
  rw [List.length_drop]
  omega

theorem lastN_of_le (n : ℕ) (l : List α) (h : l.length ≤ n) : lastN n l = l := by
  unfold lastN
  rw [show l.length - n = 0 from by omega]
  exact List.drop_zero l

theorem hpush_eq_lastN (h : List α) (v : α) (hh : h.length ≤ 60) :
    hpush 60 h v = lastN 60 (h ++ [v]) := by
  unfold hpush lastN
  by_cases hc : 60 ≤ h.length
  · rw [if_pos hc, List.length_append]
    have h60 : h.length = 60 := le_antisymm hh hc
    rw [show ([v] : List α).length = 1 from rfl]
    rw [show h.length + 1 - 60 = 1 from by omega]
    rw [List.drop_append_of_le_length (by omega)]
  · rw [if_neg hc, List.length_append]
    rw [show ([v] : List α).length = 1 from rfl]
    rw [show h.length + 1 - 60 = 0 from by omega]
    exact (List.drop_zero _).symm

theorem lastN_append_lastN (n : ℕ) (l t : List α) :
    lastN n (lastN n l ++ t) = lastN n (l ++ t) := by
  unfold lastN
  rw [← List.drop_append_of_le_length (by omega : l.length - n ≤ l.length)]
  rw [List.drop_drop]
  congr 1
  simp only [List.length_append, List.length_drop]
  omega

theorem foldl_hpush_lastN (vs : List α) :
    ∀ h : List α, h.length ≤ 60 →
      List.foldl (hpush 60) h vs = lastN 60 (h ++ vs) := by
  induction vs with
  | nil =>
    intro h hh
    rw [List.foldl_nil, List.append_nil, lastN_of_le 60 h hh]
  | cons v vs ih =>
    intro h hh
    rw [List.foldl_cons, ih (hpush 60 h v) (hpush_length_le h v hh),
      hpush_eq_lastN h v hh, lastN_append_lastN, List.append_assoc,
      List.singleton_append]

theorem updateCpuHistory_length (n : ℕ) :
    ∀ (hist : List CpuInfo) (cpus : List SampleCpu),
      (updateCpuHistory n hist cpus).length = hist.length := by
  intro hist
  induction hist with
  | nil => intro cpus; cases cpus <;> rfl
  | cons info hist ih =>
    intro cpus
    cases cpus with
    | nil => rfl
    | cons c cs => simp [updateCpuHistory, ih]

theorem updateCpuHistory_getElem? (n : ℕ) :
    ∀ (hist : List CpuInfo) (cpus : List SampleCpu) (i : ℕ),
      (updateCpuHistory n hist cpus)[i]? =
        match hist[i]?, cpus[i]? with
        | some info, some cpu =>
            some { info with
              usage := cpu.cpu_usage
              history := hpush n info.history cpu.cpu_usage }
        | some info, none => some info
        | none, _ => none := by
  intro hist
  induction hist with
  | nil =>
    intro cpus i
    cases cpus <;> simp [updateCpuHistory]
  | cons info hist ih =>
    intro cpus i
    cases cpus with
    | nil =>
      cases i with
      | zero => simp [updateCpuHistory]
      | succ j =>
        simp only [updateCpuHistory, List.getElem?_cons_succ, List.getElem?_nil]
        cases hist[j]? <;> rfl
    | cons cpu cpus =>
      cases i with
      | zero => simp [updateCpuHistory]
      | succ j =>
        simpa only [updateCpuHistory, List.getElem?_cons_succ] using ih cpus j

theorem refresh_max (m : SystemMonitor) (s : Sample) :
    (m.refresh s).max_history_len = m.max_history_len := rfl

theorem foldl_refresh_memory (ss : List Sample) :
    ∀ m : SystemMonitor, m.max_history_len = 60 →
      (List.foldl SystemMonitor.refresh m ss).memory_history =
        List.foldl (hpush 60) m.memory_history (ss.map memPercent) := by
  induction ss with
  | nil => intro m _; rfl
  | cons s ss ih =>
    intro m h
    rw [List.map_cons, List.foldl_cons, List.foldl_cons, ih (m.refresh s) h]
    congr 1
    show hpush m.max_history_len m.memory_history (memPercent s) = _
    rw [h]

theorem foldl_refresh_cpu (ss : List Sample) :
    ∀ m : SystemMonitor, m.max_history_len = 60 → ∀ i : ℕ,
      ((List.foldl SystemMonitor.refresh m ss).cpu_history[i]?).map CpuInfo.history =
        (m.cpu_history[i]?).map
          (fun info => List.foldl (hpush 60) info.history (cpuPushed i ss)) := by
  induction ss with
  | nil =>
    intro m _ i
    cases hx : m.cpu_history[i]? <;> simp [cpuPushed, hx]
  | cons s ss ih =>
    intro m h i
    rw [List.foldl_cons, ih (m.refresh s) h i]
    rw [show (m.refresh s).cpu_history =
      updateCpuHistory m.max_history_len m.cpu_history s.cpus from rfl]
    rw [updateCpuHistory_getElem?, h]
    cases h1 : m.cpu_history[i]? with
    | none =>
      cases h2 : s.cpus[i]? <;> simp
    | some info =>
      cases h2 : s.cpus[i]? with
      | none =>
        rw [show cpuPushed i (s :: ss) = cpuPushed i ss from by
          unfold cpuPushed
          rw [List.filterMap_cons, h2]
          rfl]
      | some cpu =>
        rw [show cpuPushed i (s :: ss) = cpu.cpu_usage :: cpuPushed i ss from by
          unfold cpuPushed
          rw [List.filterMap_cons, h2]
          rfl]
        simp [List.foldl_cons]

theorem foldl_refresh_cpu_length (ss : List Sample) :
    ∀ m : SystemMonitor,
      (List.foldl SystemMonitor.refresh m ss).cpu_history.length =
        m.cpu_history.length := by
  induction ss with
  | nil => intro m; rfl
  | cons s ss ih =>
    intro m
    rw [List.foldl_cons, ih]
    exact updateCpuHistory_length m.max_history_len m.cpu_history s.cpus

theorem new_cpu_history_length (init : Sample) :
    (SystemMonitor.new init).cpu_history.length = init.cpus.length := by
  unfold SystemMonitor.new
  exact List.length_map init.cpus _

theorem cpuPushed_length (i : ℕ) (ss : List Sample)
    (h : ∀ s ∈ ss, i < s.cpus.length) :
    (cpuPushed i ss).length = ss.length := by
  unfold cpuPushed
  induction ss with
  | nil => rfl
  | cons s ss ih =>
    rw [List.filterMap_cons]
    rw [List.getElem?_eq_getElem (h s (by simp))]
    simp only [Option.map_some']
    rw [List.length_cons, List.length_cons, ih (fun t ht => h t (by simp [ht]))]

theorem updateCpuHistory_take (n : ℕ) :
    ∀ (hist : List CpuInfo) (cpus : List SampleCpu),
      updateCpuHistory n hist (cpus.take hist.length) =
        updateCpuHistory n hist cpus := by
  intro hist
  induction hist with
  | nil => intro cpus; cases cpus <;> rfl
  | cons info hist ih =>
    intro cpus
    cases cpus with
    | nil => rfl
    | cons c cs =>
      rw [List.length_cons, List.take_succ_cons]
      show _ :: updateCpuHistory n hist (cs.take hist.length) = _
      rw [ih cs]
      rfl

/-- C2: after any finite sequence of refreshes from a fresh monitor, every
tracked series (each CPU core's history and the memory history) holds at
most 60 samples, and its content is exactly the last `min(n, 60)` values
pushed into it, oldest first (strict FIFO eviction at capacity). -/
theorem history_ring_buffer (init : Sample) (ss : List Sample) (m : SystemMonitor)
    (hm : m = List.foldl SystemMonitor.refresh (SystemMonitor.new init) ss) :
    (m.memory_history = lastN 60 (ss.map memPercent) ∧ m.memory_history.length ≤ 60) ∧
    ∀ i info, m.cpu_history[i]? = some info →
      info.history = lastN 60 (cpuPushed i ss) ∧ info.history.length ≤ 60 := by
  subst hm
  constructor
  · have h1 := foldl_refresh_memory ss (SystemMonitor.new init) rfl
    rw [show (SystemMonitor.new init).memory_history = ([] : List F32) from rfl] at h1
    rw [h1, foldl_hpush_lastN _ [] (by simp), List.nil_append]
    exact ⟨rfl, by rw [lastN_length]; omega⟩
  · intro i info hinfo
    have h2 := foldl_refresh_cpu ss (SystemMonitor.new init) rfl i
    rw [hinfo] at h2
    have hmap : (SystemMonitor.new init).cpu_history[i]? =
        (init.cpus[i]?).map fun cpu =>
          ({ name := cpu.name, usage := F32.fin 0, history := [] } : CpuInfo) := by
      unfold SystemMonitor.new
      exact List.getElem?_map _ _ i
    rw [hmap] at h2
    cases hcpu : init.cpus[i]? with
    | none => rw [hcpu] at h2; simp at h2
    | some cpu =>
      rw [hcpu] at h2
      simp only [Option.map_some'] at h2
      have h3 : info.history = List.foldl (hpush 60) [] (cpuPushed i ss) := by
        injection h2
      rw [h3, foldl_hpush_lastN _ [] (by simp), List.nil_append]
      exact ⟨rfl, by rw [lastN_length]; omega⟩

/-- C2 witness: the spec's two-core scenario — after refreshes pushing
`[10, 90]` then `[20, 70]`, core 0 holds history `[10, 20]` (and the
memory series its two pushed percentages). -/
theorem history_ring_buffer_witness :
    monCores.cpu_history[0]? = some infoCore0 ∧
    (infoCore0.history = lastN 60 (cpuPushed 0 [sampleCores1, sampleCores2]) ∧
      infoCore0.history.length ≤ 60) ∧
    (monCores.memory_history =
      lastN 60 ([sampleCores1, sampleCores2].map memPercent) ∧
      monCores.memory_history.length ≤ 60) := by
  refine ⟨by decide, ?_, ?_⟩
  · exact (history_ring_buffer sampleCores0 [sampleCores1, sampleCores2]
      monCores rfl).2 0 infoCore0 (by decide)
  · exact (history_ring_buffer sampleCores0 [sampleCores1, sampleCores2]
      monCores rfl).1

/-- C9: the CPU series count is fixed at construction (one per initially
reported core) and never changes across any number of refreshes; a refresh
ignores sample cores beyond the series count, and leaves every series with
index at or beyond the sample's core count completely untouched. -/
theorem frozen_series_count (m : SystemMonitor) (s : Sample) (init : Sample)
    (ss : List Sample) :
    (SystemMonitor.new init).cpu_history.length = init.cpus.length ∧
    (m.refresh s).cpu_history.length = m.cpu_history.length ∧
    (List.foldl SystemMonitor.refresh m ss).cpu_history.length = m.cpu_history.length ∧
    (m.refresh s).cpu_history =
      (m.refresh { s with cpus := s.cpus.take m.cpu_history.length }).cpu_history ∧
    ∀ i, s.cpus.length ≤ i → (m.refresh s).cpu_history[i]? = m.cpu_history[i]? := by
  refine ⟨new_cpu_history_length init,
    updateCpuHistory_length m.max_history_len m.cpu_history s.cpus,
    foldl_refresh_cpu_length ss m, ?_, ?_⟩
  · show updateCpuHistory _ _ _ = updateCpuHistory _ _ _
    exact (updateCpuHistory_take m.max_history_len m.cpu_history s.cpus).symm
  · intro i hi
    show (updateCpuHistory m.max_history_len m.cpu_history s.cpus)[i]? = _
    rw [updateCpuHistory_getElem?]
    rw [List.getElem?_eq_none hi]
    cases m.cpu_history[i]? <;> rfl

/-- C9 witness: a refresh reporting no cores leaves both series of the
two-core monitor untouched. -/
theorem frozen_series_count_witness :
    (SystemMonitor.new sampleCores0).cpu_history.length = sampleCores0.cpus.length ∧
    ((SystemMonitor.new sampleCores0).refresh sampleEmpty).cpu_history[0]? =
      (SystemMonitor.new sampleCores0).cpu_history[0]? := by
  refine ⟨(frozen_series_count (SystemMonitor.new sampleCores0) sampleEmpty
    sampleCores0 []).1, ?_⟩
  exact (frozen_series_count (SystemMonitor.new sampleCores0) sampleEmpty
    sampleCores0 []).2.2.2.2 0 (by decide)

/-- C10 (implicit): when every sample reports at least as many cores as
the frozen series count, all CPU histories and the memory history advance
in lockstep: after `k` refreshes each has length exactly `min(k, 60)`. -/
theorem lockstep_history (init : Sample) (ss : List Sample)
    (hfull : ∀ s ∈ ss, init.cpus.length ≤ s.cpus.length)
    (m : SystemMonitor)
    (hm : m = List.foldl SystemMonitor.refresh (SystemMonitor.new init) ss) :
    m.memory_history.length = min ss.length 60 ∧
    ∀ info ∈ m.cpu_history, info.history.length = min ss.length 60 := by
  have hc2 := history_ring_buffer init ss m hm
  constructor
  · rw [hc2.1.1, lastN_length, List.length_map]
    omega
  · intro info hinfo
    obtain ⟨i, hi, hget⟩ := List.mem_iff_getElem.mp hinfo
    have hlen : m.cpu_history.length = init.cpus.length := by
      rw [hm, foldl_refresh_cpu_length, new_cpu_history_length]
    have hcount : i < init.cpus.length := hlen ▸ hi
    have hsome : m.cpu_history[i]? = some info := by
      rw [List.getElem?_eq_getElem hi, hget]
    have := (hc2.2 i info hsome).1
    rw [this, lastN_length,
      cpuPushed_length i ss (fun s hs => lt_of_lt_of_le hcount (hfull s hs))]
    omega

/-- C10 witness: the two-core scenario run — both series and the memory
history have length `min 2 60 = 2`. -/
theorem lockstep_history_witness :
    monCores.memory_history.length = min 2 60 ∧
    monCores.cpu_history.get ⟨0, by decide⟩ ∈ monCores.cpu_history ∧
    (monCores.cpu_history.get ⟨0, by decide⟩).history.length = min 2 60 := by
  have h := lockstep_history sampleCores0 [sampleCores1, sampleCores2]
    (by decide) monCores rfl
  have hmem : monCores.cpu_history.get ⟨0, by decide⟩ ∈ monCores.cpu_history :=
    List.getElem_mem _
  exact ⟨h.1, hmem, h.2 _ hmem⟩

/-- C3: sort correctness of `get_processes` — adjacent pairs are
non-increasing in `cpu_usage` under CPU sort (NaN treated as equal),
non-increasing in `memory` under Memory sort, strictly increasing in
`pid` under PID sort (pids unique), and non-descending in lowercased
`name` under Name sort. -/
theorem get_processes_sort_correct (m : SystemMonitor)
    (hpid : m.system.processes.Pairwise (fun p q => p.pid ≠ q.pid)) :
    (m.get_processes .cpu).Chain' (fun a b => f32GeNaNEq a.cpu_usage b.cpu_usage) ∧
    (m.get_processes .memory).Chain' (fun a b => b.memory ≤ a.memory) ∧
    (m.get_processes .pid).Chain' (fun a b => a.pid < b.pid) ∧
    (m.get_processes .name).Chain' (fun a b => a.name.toLower ≤ b.name.toLower) := by
  refine ⟨?_, ?_, ?_, ?_⟩
  · exact (sortBy_chain cmpCpu cmpCpu_swap m.processTable).imp cmpCpu_ne_gt
  · exact (sortBy_chain cmpMemory cmpMemory_swap m.processTable).imp
      fun (a b : ProcessInfo) h => (natCmp_ne_gt b.memory a.memory).mp h
  · have hle : (m.get_processes .pid).Chain' (fun a b => a.pid ≤ b.pid) :=
      (sortBy_chain cmpPid cmpPid_swap m.processTable).imp
        fun (a b : ProcessInfo) h => (natCmp_ne_gt a.pid b.pid).mp h
    have hperm : (m.get_processes .pid).Perm m.processTable :=
      sortBy_perm cmpPid m.processTable
    have htab : m.processTable.Pairwise (fun a b => a.pid ≠ b.pid) := by
      unfold SystemMonitor.processTable
      rw [List.pairwise_map]
      exact hpid
    have hpw : (m.get_processes .pid).Pairwise (fun a b => a.pid ≠ b.pid) :=
      (hperm.pairwise_iff fun h => h.symm).mpr htab
    rw [List.chain'_iff_get] at hle ⊢
    intro i hi
    refine lt_of_le_of_ne (hle i hi) ?_
    have h1 : i < (m.get_processes .pid).length := by omega
    have h2 : i + 1 < (m.get_processes .pid).length := by omega
    exact List.pairwise_iff_get.mp hpw ⟨i, h1⟩ ⟨i + 1, h2⟩ (by
      simp [Fin.lt_def])
  · exact (sortBy_chain cmpName cmpName_swap m.processTable).imp
      fun a b h => (strCmp_ne_gt _ _).mp h

/-- C3 witness: the spec's scenario table `{(pid=1, cpu=5, mem=100),
(pid=2, cpu=50, mem=50)}` has unique pids; all four chains hold. -/
theorem get_processes_sort_correct_witness :
    monAB.system.processes.Pairwise (fun p q => p.pid ≠ q.pid) ∧
    ((monAB.get_processes .cpu).Chain'
        (fun a b => f32GeNaNEq a.cpu_usage b.cpu_usage) ∧
      (monAB.get_processes .memory).Chain' (fun a b => b.memory ≤ a.memory) ∧
      (monAB.get_processes .pid).Chain' (fun a b => a.pid < b.pid) ∧
      (monAB.get_processes .name).Chain'
        (fun a b => a.name.toLower ≤ b.name.toLower)) :=
  ⟨by decide, get_processes_sort_correct monAB (by decide)⟩

/-- C5: the CPU comparator is total — it never fails, treating every
incomparable (NaN) pair as equal — and sorting by it always produces a
permutation of the process table, for any table including ones with NaN
`cpu_usage` values. -/
theorem cpu_sort_total (m : SystemMonitor) :
    (m.get_processes .cpu).Perm m.processTable ∧
    ∀ a b : ProcessInfo, f32Pcmp a.cpu_usage b.cpu_usage = none →
      cmpCpu a b = .eq ∧ cmpCpu b a = .eq := by
  constructor
  · exact sortBy_perm cmpCpu m.processTable
  · intro a b
    unfold cmpCpu f32Pcmp
    cases a.cpu_usage <;> cases b.cpu_usage <;> intro h <;> simp_all

/-- C5 witness: a table containing a NaN reading still sorts to a
permutation, and the comparator calls NaN pairs equal. -/
theorem cpu_sort_total_witness :
    (monNaN.get_processes .cpu).Perm monNaN.processTable ∧
    f32Pcmp procNaN.cpu_usage procNaN.cpu_usage = none ∧
    (cmpCpu procNaN procNaN = .eq ∧ cmpCpu procNaN procNaN = .eq) :=
  ⟨(cpu_sort_total monNaN).1, by decide,
    (cpu_sort_total monNaN).2 procNaN procNaN (by decide)⟩

/-- C6: `get_processes` on an empty process table returns the empty list
for every sort key, and after a refresh that samples zero processes it
still returns the empty list. -/
theorem empty_state_total (m : SystemMonitor) (so : SortOrder) (s : Sample) :
    (m.system.processes = [] → m.get_processes so = []) ∧
    (s.processes = [] → (m.refresh s).get_processes so = []) := by
  constructor
  · intro h
    have ht : m.processTable = [] := by
      unfold SystemMonitor.processTable
      rw [h]
      rfl
    cases so <;> simp [SystemMonitor.get_processes, ht, sortBy]
  · intro h
    have ht : (m.refresh s).processTable = [] := by
      unfold SystemMonitor.processTable
      rw [show (m.refresh s).system = s from rfl, h]
      rfl
    cases so <;> simp [SystemMonitor.get_processes, ht, sortBy]

/-- C6 witness: the empty monitor yields an empty view, before and after
an empty refresh, for the CPU sort key. -/
theorem empty_state_total_witness :
    monEmpty.get_processes .cpu = [] ∧
    (monEmpty.refresh sampleEmpty).get_processes .cpu = [] :=
  ⟨(empty_state_total monEmpty .cpu sampleEmpty).1 (by decide),
    (empty_state_total monEmpty .cpu sampleEmpty).2 (by decide)⟩

theorem kill_fields (term : ℕ → Bool) (a : App) :
    (a.kill_selected_process term).2.1 = a ∧
    (a.kill_selected_process term).2.2 = true := by
  cases h : (a.system_monitor.get_processes a.sort_order)[a.selected_process]? <;>
    simp [App.kill_selected_process, h]

/-- C7 counterexample: with an empty view and the cursor at 5,
`move_selection_down` leaves the cursor at 5 — the claim says it would be
set to 0 when the view length is 0. -/
theorem navigation_semantics_cex :
    appC7.viewLen = 0 ∧
    (appC7.move_selection_down).selected_process = 5 ∧
    (appC7.move_selection_down).selected_process ≠ 0 := by
  decide

/-- C7 amended: for a cursor in range (`cursor < max(1, L)`), `move_up`
decrements with a floor at 0, and `move_down` increments capped at
`L - 1`; when `L == 0` the cursor (necessarily 0) stays 0.  (Out of
range, `move_down` leaves the cursor unchanged rather than clamping.) -/
theorem navigation_semantics (a : App)
    (hinv : a.selected_process < max 1 a.viewLen) :
    (a.move_selection_up).selected_process = a.selected_process - 1 ∧
    (a.move_selection_down).selected_process =
      (if a.viewLen = 0 then 0
       else min (a.selected_process + 1) (a.viewLen - 1)) := by
  constructor
  · unfold App.move_selection_up
    split_ifs with h
    · rfl
    · omega
  · unfold App.viewLen at hinv
    unfold App.move_selection_down App.viewLen
    by_cases h1 : a.selected_process <
        (a.system_monitor.get_processes a.sort_order).length - 1
    · rw [if_pos h1]
      by_cases h0 : (a.system_monitor.get_processes a.sort_order).length = 0
      · exact absurd h1 (by omega)
      · rw [if_neg h0]
        show a.selected_process + 1 = _
        omega
    · rw [if_neg h1]
      by_cases h0 : (a.system_monitor.get_processes a.sort_order).length = 0
      · rw [if_pos h0]
        omega
      · rw [if_neg h0]
        omega

/-- C7 witness: over the two-process view with the cursor on the last
row, up moves to 0 and down stays at 1 (= `L - 1`). -/
theorem navigation_semantics_witness :
    appAB1.selected_process < max 1 appAB1.viewLen ∧
    (appAB1.move_selection_up).selected_process = appAB1.selected_process - 1 ∧
    (appAB1.move_selection_down).selected_process =
      (if appAB1.viewLen = 0 then 0
       else min (appAB1.selected_process + 1) (appAB1.viewLen - 1)) :=
  ⟨by decide, navigation_semantics appAB1 (by decide)⟩

/-- C8: `kill_selected_process` reads the sorted view; out of range it
invokes nothing, in range it invokes the Terminator exactly once with the
pid at the cursor; it always returns `Ok`, leaves the app state (monitor,
cursor, sort key) unchanged, and its outcome is independent of the
Terminator's result. -/
theorem kill_selected_spec (term : ℕ → Bool) (a : App) :
    (∀ p, (a.system_monitor.get_processes a.sort_order)[a.selected_process]? = some p →
      (a.kill_selected_process term).1 = [p.pid]) ∧
    ((a.system_monitor.get_processes a.sort_order)[a.selected_process]? = none →
      (a.kill_selected_process term).1 = []) ∧
    (a.kill_selected_process term).2.1 = a ∧
    (a.kill_selected_process term).2.2 = true ∧
    ∀ term2, a.kill_selected_process term = a.kill_selected_process term2 := by
  refine ⟨?_, ?_, (kill_fields term a).1, (kill_fields term a).2, ?_⟩
  · intro p hp
    simp [App.kill_selected_process, hp]
  · intro hp
    simp [App.kill_selected_process, hp]
  · intro term2
    cases h : (a.system_monitor.get_processes a.sort_order)[a.selected_process]? <;>
      simp [App.kill_selected_process, h]

/-- C8 witness: killing over the two-process view at cursor 1 invokes the
Terminator once with the pid of the second row (pid 1, the lower-CPU
process), ignores a failing Terminator, and changes nothing. -/
theorem kill_selected_spec_witness :
    (appAB1.system_monitor.get_processes appAB1.sort_order)[appAB1.selected_process]? =
      some ((appAB1.system_monitor.get_processes appAB1.sort_order).get ⟨1, by decide⟩) ∧
    (appAB1.kill_selected_process (fun _ => false)).1 =
      [((appAB1.system_monitor.get_processes appAB1.sort_order).get ⟨1, by decide⟩).pid] ∧
    (appAB1.kill_selected_process (fun _ => false)).2.1 = appAB1 ∧
    (appAB1.kill_selected_process (fun _ => false)).2.2 = true := by
  have h := kill_selected_spec (fun _ => false) appAB1
  refine ⟨by decide, h.1 _ (by decide), h.2.2.1, h.2.2.2.1⟩

/-- C1 counterexample: from startup, refresh to a five-row view, move the
cursor to row 4, then a refresh shrinks the view to two rows — the
reachable state keeps cursor 4 with view length 2, violating
`0 <= cursor < max(1, view_length)`: no clamp is applied on refresh. -/
theorem selection_invariant_cex :
    App.Reachable sampleEmpty appShrunk ∧
    appShrunk.selected_process = 4 ∧
    appShrunk.viewLen = 2 ∧
    ¬ appShrunk.selInv := by
  refine ⟨?_, by decide, by decide, by decide⟩
  show App.Reachable sampleEmpty
    (((((((App.new sampleEmpty).step (.refresh sample5)).step .keyDown).step
      .keyDown).step .keyDown).step .keyDown).step (.refresh sample2))
  exact .tail _ _ (.tail _ _ (.tail _ _ (.tail _ _ (.tail _ _ (.tail _ _ .refl)))))

/-- C1 amended: sort-key changes reset the cursor to 0 and navigation and
kill preserve `0 <= cursor < max(1, view_length)`; but a refresh performs
no clamping at all — it leaves the cursor unchanged even when the view
shrinks, so the invariant survives a refresh only when the new view is
still longer than the cursor. -/
theorem selection_invariant_events (a : App) (hinv : a.selInv) :
    (a.step .keyUp).selInv ∧
    (a.step .keyDown).selInv ∧
    (a.step .keyKill).selInv ∧
    (a.step .keySortCpu).selInv ∧
    (a.step .keySortMem).selInv ∧
    (a.step .keySortCpu).selected_process = 0 ∧
    (a.step .keySortMem).selected_process = 0 ∧
    ∀ s : Sample, (a.step (.refresh s)).selected_process = a.selected_process := by
  refine ⟨?_, ?_, ?_, ?_, ?_, rfl, rfl, fun s => rfl⟩
  · show (a.move_selection_up).selInv
    unfold App.selInv App.viewLen at hinv
    unfold App.selInv App.viewLen App.move_selection_up
    split_ifs <;> first
    | exact hinv
    | (dsimp only; omega)
  · show (a.move_selection_down).selInv
    unfold App.selInv App.viewLen at hinv
    unfold App.selInv App.viewLen App.move_selection_down
    by_cases h1 : a.selected_process <
        (a.system_monitor.get_processes a.sort_order).length - 1
    · rw [if_pos h1]
      dsimp only
      omega
    · rw [if_neg h1]
      exact hinv
  · show ((a.kill_selected_process (fun _ => true)).2.1).selInv
    rw [(kill_fields (fun _ => true) a).1]
    exact hinv
  · show App.selInv { a with sort_order := .cpu, selected_process := 0 }
    unfold App.selInv
    dsimp only
    omega
  · show App.selInv { a with sort_order := .memory, selected_process := 0 }
    unfold App.selInv
    dsimp only
    omega

/-- C1 witness: a state with the invariant (two-row view, cursor 1):
navigation preserves it, and a refresh passes the cursor through. -/
theorem selection_invariant_events_witness :
    appAB1.selInv ∧
    (appAB1.step .keyUp).selInv ∧
    (appAB1.step (.refresh sampleEmpty)).selected_process =
      appAB1.selected_process :=
  ⟨by decide, (selection_invariant_events appAB1 (by decide)).1,
    (selection_invariant_events appAB1 (by decide)).2.2.2.2.2.2.2 sampleEmpty⟩

theorem cinv_start (initS : Sample) : CInv initS (CState.start initS) := by
  refine ⟨fun _ => rfl, fun _ => rfl, fun h => ?_, fun h => ?_⟩ <;>
    simp [CState.start] at h

theorem cstep_inv (initS : Sample) {c c' : CState} (hstep : CStep c c')
    (ih : CInv initS c) : CInv initS c' := by
  obtain ⟨ih1, ih2, ih3, ih4⟩ := ih
  cases hstep with
  | wAcquire s hr hw =>
    refine ⟨fun _ => hr, ?_, ?_, ?_⟩
    · intro _
      exact ih2 (Or.inl hw)
    · intro h
      nomatch h
    · intro h
      nomatch h
  | wSys hw =>
    have hr0 : c.readers = 0 := ih1 (by rw [hw]; decide)
    have hc : c.mon = refreshedMon initS c.applied := ih2 (Or.inr hw)
    refine ⟨fun _ => hr0, ?_, ?_, ?_⟩
    · intro hor
      rcases hor with h | h <;> nomatch h
    · intro _
      show ({ c.mon with system := c.pending } : SystemMonitor) = _
      rw [hc]
    · intro h
      nomatch h
  | wCpu hw =>
    have hr0 : c.readers = 0 := ih1 (by rw [hw]; decide)
    have hc := ih3 hw
    refine ⟨fun _ => hr0, ?_, ?_, ?_⟩
    · intro hor
      rcases hor with h | h <;> nomatch h
    · intro h
      nomatch h
    · intro _
      show ({ c.mon with
        cpu_history := updateCpuHistory c.mon.max_history_len
          c.mon.cpu_history c.pending.cpus } : SystemMonitor) = _
      rw [hc]
  | wMemRelease hw =>
    have hr0 : c.readers = 0 := ih1 (by rw [hw]; decide)
    have hc := ih4 hw
    refine ⟨fun _ => hr0, ?_, ?_, ?_⟩
    · intro _
      show ({ c.mon with
        memory_history := hpush c.mon.max_history_len
          c.mon.memory_history (memPercent c.pending) } : SystemMonitor) =
        refreshedMon initS (c.applied ++ [c.pending])
      rw [hc]
      unfold refreshedMon
      rw [List.foldl_append]
      rfl
    · intro h
      nomatch h
    · intro h
      nomatch h
  | rAcquire hw =>
    refine ⟨fun h => absurd hw h, fun _ => ih2 (Or.inl hw), ?_, ?_⟩
    · intro h
      rw [hw] at h
      nomatch h
    · intro h
      rw [hw] at h
      nomatch h
  | rRelease hr =>
    refine ⟨fun h => by rw [ih1 h], fun h => ih2 h, fun h => ih3 h, fun h => ih4 h⟩

theorem creach_inv (initS : Sample) (c : CState) (h : CReach initS c) :
    CInv initS c := by
  induction h with
  | refl => exact cinv_start initS
  | tail hreach hstep ih => exact cstep_inv initS hstep ih

/-- C4: whenever any reader holds the lock, the writer holds no stage of
its critical section, and the monitor the reader sees is exactly the
state after a whole number of complete refreshes — never a torn update;
moreover a single refresh grows each history length by at most 1. -/
theorem refresh_atomicity (initS : Sample) (c : CState)
    (hreach : CReach initS c) (hread : 0 < c.readers) :
    c.wpc = WriterPc.idle ∧
    c.mon = refreshedMon initS c.applied ∧
    ∀ (m : SystemMonitor) (s : Sample),
      (m.refresh s).memory_history.length ≤ m.memory_history.length + 1 ∧
      ∀ (i : ℕ) (info info' : CpuInfo), m.cpu_history[i]? = some info →
        (m.refresh s).cpu_history[i]? = some info' →
        info'.history.length ≤ info.history.length + 1 := by
  obtain ⟨h1, h2, _, _⟩ := creach_inv initS c hreach
  have hidle : c.wpc = .idle := by
    by_contra hne
    rw [h1 hne] at hread
    exact Nat.lt_irrefl 0 hread
  refine ⟨hidle, h2 (Or.inl hidle), ?_⟩
  intro m s
  constructor
  · exact hpush_length_succ_le _ _ _
  · intro i info info' hi hi'
    rw [show (m.refresh s).cpu_history =
      updateCpuHistory m.max_history_len m.cpu_history s.cpus from rfl,
      updateCpuHistory_getElem?, hi] at hi'
    cases hc : s.cpus[i]? with
    | none =>
      rw [hc] at hi'
      simp at hi'
      rw [hi']
      omega
    | some cpu =>
      rw [hc] at hi'
      simp at hi'
      rw [← hi']
      exact hpush_length_succ_le _ _ _

/-- C4 witness: after one reader acquires the lock from startup, the
reader sees the untouched (zero-refresh) monitor and no writer stage. -/
theorem refresh_atomicity_witness :
    cReader.wpc = WriterPc.idle ∧
    cReader.mon = refreshedMon sampleEmpty cReader.applied := by
  have h := refresh_atomicity sampleEmpty cReader
    (CReach.tail CReach.refl (CStep.rAcquire (CState.start sampleEmpty) rfl))
    (by decide)
  exact ⟨h.1, h.2.1⟩
